import Mathlib

/-!
Verification of the PISM stress-balance core (grid iteration, finite-element
kernel, node classification, residual/Jacobian assembly, Dirichlet
enforcement, multigrid padding) against its natural-language specification.

Numbers: C++ `double` values are modelled as real numbers `ℝ` where the
claims are algebraic identities, and as elements of a linear order / an
ordered field (instantiated at `ℚ` in concrete witnesses) where only
comparisons and exact bookkeeping matter.  C++ `int` is modelled as `ℤ`.
-/

namespace PISM

/-! ## Definitions -/

/-! ### Poisson3.cc: the exterior/Dirichlet scaling factor (claim C1)

Source: `src/stressbalance/blatter/Poisson3.cc`, `dirichlet_scale`.
The body is transcribed literally; note that in C++ (and in Lean) the
expression `1.0 / dz * dz` parses as `(1.0 / dz) * dz`, not `1.0 / (dz * dz)`.
-/

noncomputable section

/-- `dirichlet_scale(dx, dy, dz)` exactly as written in `Poisson3.cc`:
`dx * dy * dz * (1.0 / (dx * dx) + 1.0 / (dy * dy) + 1.0 / dz * dz)`. -/
def dirichlet_scale (dx dy dz : ℝ) : ℝ :=
  dx * dy * dz * (1.0 / (dx * dx) + 1.0 / (dy * dy) + 1.0 / dz * dz)

/-- The scaling factor as the specification words it:
`dx·dy·dz·(1/dx² + 1/dy² + 1/dz²)`.  Kept separate from `dirichlet_scale`
(which transcribes the code) so the two can be compared. -/
def dirichlet_scale_spec (dx dy dz : ℝ) : ℝ :=
  dx * dy * dz * (1.0 / (dx * dx) + 1.0 / (dy * dy) + 1.0 / (dz * dz))

/-- The value used for the unknown at exterior nodes
(`const double u_exterior = 0.0;` in `Poisson3.cc`). -/
def u_exterior : ℝ := 0.0

/-- The vertical spacing used at a node in `Poisson3::compute_residual` and
`Poisson3::compute_jacobian`:
`dz = std::max(thickness, min_thickness) / (mz - 1)`. -/
def node_dz (thickness min_thickness : ℝ) (mz : ℕ) : ℝ :=
  max thickness min_thickness / ((mz : ℝ) - 1)

/-- The residual assigned to an owned EXTERIOR node in
`Poisson3::compute_residual`:
`R = dirichlet_scale(dx, dy, dz) * (x - u_exterior)`. -/
def residual_exterior (dx dy thickness min_thickness : ℝ) (mz : ℕ) (x : ℝ) : ℝ :=
  dirichlet_scale dx dy (node_dz thickness min_thickness mz) * (x - u_exterior)

/-- The value added to the Jacobian diagonal at an owned EXTERIOR (or
Dirichlet) node in `Poisson3::compute_jacobian`:
`scaling = dirichlet_scale(dx, dy, dz)`. -/
def jacobian_exterior_diagonal (dx dy thickness min_thickness : ℝ) (mz : ℕ) : ℝ :=
  dirichlet_scale dx dy (node_dz thickness min_thickness mz)

/-! ### FETools.cc: Q1 and P1 reference shape functions (claim C10)

Source: `q1::chi` and `p1::chi` in the FE utilities file.
-/

/-- The tuple (value, d/dxi, d/deta) of a 2D shape function at one point
(`Germ` in `FETools.hh`, 2D case). -/
structure Germ where
  val : ℝ
  dx : ℝ
  dy : ℝ

/-- Reference-element node coordinate `xi[k]` for Q1 (source:
`static const double xi[n_chi]  = {-1.0,  1.0, 1.0, -1.0};`). -/
def q1_xi : Fin 4 → ℝ := ![-1.0, 1.0, 1.0, -1.0]

/-- Reference-element node coordinate `eta[k]` for Q1 (source:
`static const double eta[n_chi] = {-1.0, -1.0, 1.0,  1.0};`). -/
def q1_eta : Fin 4 → ℝ := ![-1.0, -1.0, 1.0, 1.0]

/-- `q1::chi(k, pt)`: the Q1 basis functions on the reference element with
nodes (-1,-1), (1,-1), (1,1), (-1,1). -/
def q1_chi (k : Fin 4) (xi eta : ℝ) : Germ :=
  { val := 0.25 * (1.0 + q1_xi k * xi) * (1.0 + q1_eta k * eta)
    dx  := 0.25 * q1_xi k * (1.0 + q1_eta k * eta)
    dy  := 0.25 * q1_eta k * (1.0 + q1_xi k * xi) }

/-- `p1::chi(k, pt)`: the P1 basis functions on the reference element with
nodes (0,0), (1,0), (0,1), plus the zero-valued dummy fourth function. -/
def p1_chi (k : Fin 4) (xi eta : ℝ) : Germ :=
  match k with
  | 0 => { val := 1.0 - xi - eta, dx := -1.0, dy := -1.0 }
  | 1 => { val := xi, dx := 1.0, dy := 0.0 }
  | 2 => { val := eta, dx := 0.0, dy := 1.0 }
  | 3 => { val := 0.0, dx := 0.0, dy := 0.0 }

/-! ### FETools.cc: quadrature weights (claim C6)

Sources: `UniformQxQuadrature::UniformQxQuadrature`,
`tensor_product_quadrature`, `Quadrature::initialize` (weight part),
`Q1Quadrature4`, `Q1Quadrature9`, `Q1Quadrature16`, `P1Quadrature`,
`P1Quadrature3`.
-/

/-- A 2x2 matrix of reals (the per-element Jacobian `m_J` of the
reference-to-physical map). -/
structure Mat2 where
  a00 : ℝ
  a01 : ℝ
  a10 : ℝ
  a11 : ℝ

/-- `determinant(J)` for a 2x2 matrix, as in FETools.cc. -/
def det2 (J : Mat2) : ℝ := J.a00 * J.a11 - J.a10 * J.a01

/-- The Jacobian set by `UniformQxQuadrature` for a Q1 element of size
`dx` by `dy` with length scaling `L`:  diag(0.5*dx/L, 0.5*dy/L). -/
def uniformQxJ (dx dy L : ℝ) : Mat2 :=
  { a00 := 0.5 * dx / L, a01 := 0.0, a10 := 0.0, a11 := 0.5 * dy / L }

/-- The 2D weights produced by `tensor_product_quadrature` from a 1D rule of
size `n` with weights `w`: `weights[q] = weights1[i] * weights1[j]`, `q`
running over the row-major (j outer, i inner) tensor grid. -/
def tensorWeights (n : ℕ) (w : ℕ → ℝ) : List ℝ :=
  (List.range n).flatMap fun j => (List.range n).map fun i => w i * w j

/-- The weight part of `Quadrature::initialize`:
`m_W[q] = J_det * W[q]` with `J_det = determinant(m_J)`. -/
def initWeights (J : Mat2) (W : List ℝ) : List ℝ :=
  W.map fun w => det2 J * w

/-- 1D weights of the 2-point Gaussian rule used by `Q1Quadrature4`
(`weights2[2] = {1.0, 1.0}`). -/
def weights2fun : ℕ → ℝ := fun _ => 1.0

/-- 1D weights of the 3-point Gaussian rule used by `Q1Quadrature9`
(`weights3[3] = {5/9, 8/9, 5/9}`). -/
def weights3fun : ℕ → ℝ := fun i => if i = 1 then 8.0 / 9.0 else 5.0 / 9.0

/-- 1D weights of the 4-point Gaussian rule used by `Q1Quadrature16`
(`weights4[4] = {w2, w1, w1, w2}` with `w1 = (18+sqrt 30)/36`,
`w2 = (18-sqrt 30)/36`). -/
def weights4fun : ℕ → ℝ := fun i =>
  if i = 1 ∨ i = 2 then (18.0 + Real.sqrt 30.0) / 36.0
  else (18.0 - Real.sqrt 30.0) / 36.0

/-- The stored quadrature weights of `Q1Quadrature4(dx, dy, L)`. -/
def q1Quadrature4W (dx dy L : ℝ) : List ℝ :=
  initWeights (uniformQxJ dx dy L) (tensorWeights 2 weights2fun)

/-- The stored quadrature weights of `Q1Quadrature9(dx, dy, L)`. -/
def q1Quadrature9W (dx dy L : ℝ) : List ℝ :=
  initWeights (uniformQxJ dx dy L) (tensorWeights 3 weights3fun)

/-- The stored quadrature weights of `Q1Quadrature16(dx, dy, L)`. -/
def q1Quadrature16W (dx dy L : ℝ) : List ℝ :=
  initWeights (uniformQxJ dx dy L) (tensorWeights 4 weights4fun)

/-- The Jacobian chosen by `P1Quadrature::P1Quadrature` for the embedded
triangle number `N` (four cases in the source `switch`). -/
def p1J (N : Fin 4) (dx dy L : ℝ) : Mat2 :=
  match N with
  | 0 => { a00 := dx / L, a01 := 0.0, a10 := 0.0, a11 := dy / L }
  | 1 => { a00 := 0.0, a01 := dy / L, a10 := -dx / L, a11 := 0.0 }
  | 2 => { a00 := -dx / L, a01 := 0.0, a10 := 0.0, a11 := -dy / L }
  | 3 => { a00 := 0.0, a01 := -dy / L, a10 := dx / L, a11 := 0.0 }

/-- The stored quadrature weights of `P1Quadrature3(N, dx, dy, L)`:
reference weights `{1/6, 1/6, 1/6}` scaled by the Jacobian determinant.
(The subsequent shape-function permutation does not touch weights.) -/
def p1Quadrature3W (N : Fin 4) (dx dy L : ℝ) : List ℝ :=
  initWeights (p1J N dx dy L) [1.0 / 6.0, 1.0 / 6.0, 1.0 / 6.0]

end

/-! ### Poisson3.cc: multigrid domain padding (claim C9)

Sources: `pad` and the padding block of `Poisson3::setup`.
-/

/-- One loop iteration of `pad` acting on the space count:
`k = (k % 2 ? k + 1 : k) / 2`. -/
def padStep (k : ℕ) : ℕ := (if k % 2 = 1 then k + 1 else k) / 2

/-- The loop of `pad`: starting from `(C, k) = (1, N - 1)`, each of the
`n_levels` iterations performs `C *= 2` and `k = (k % 2 ? k + 1 : k) / 2`. -/
def padAux : ℕ → ℕ × ℕ → ℕ × ℕ
  | 0, s => s
  | n + 1, s => padAux n (2 * s.1, padStep s.2)

/-- `pad(N, n_levels)`: returns `(C * k + 1) - N` after the loop. -/
def pad (N L : ℕ) : ℤ :=
  ((padAux L (1, N - 1)).1 * (padAux L (1, N - 1)).2 + 1 : ℤ) - (N : ℤ)

/-- The ownership-range update of `Poisson3::setup`:
`new_lx[Nx - 1] += pad_x` increments only the last block. -/
def updateLast : List ℤ → ℤ → List ℤ
  | [], _ => []
  | [a], p => [a + p]
  | a :: b :: rest, p => a :: updateLast (b :: rest) p

/-- The domain-bound update of `Poisson3::setup` in one direction:
`x_min` is left alone and `x_max += pad * dx`. -/
def padDomain (xmin xmax dx : ℚ) (p : ℤ) : ℚ × ℚ :=
  (xmin, xmax + (p : ℚ) * dx)

/-! ### Poisson3.cc: node classification (claim C3)

Source: `compute_node_type` in `Poisson3.cc`.  The node-type constants come
from `node_types.hh` (not among the sources); only the three-way
distinction matters, so they are modelled as an inductive type.
-/

/-- The three node classes (NODE_INTERIOR / NODE_BOUNDARY / NODE_EXTERIOR). -/
inductive NodeKind where
  | interior
  | boundary
  | exterior
deriving DecidableEq

/-- Local-node i-offsets of a 2D Q1 element
(`Element::m_i_offset[4] = {0, 1, 1, 0}`). -/
def iOffset : Fin 4 → ℤ := ![0, 1, 1, 0]

/-- Local-node j-offsets of a 2D Q1 element
(`Element::m_j_offset[4] = {0, 0, 1, 1}`). -/
def jOffset : Fin 4 → ℤ := ![0, 0, 1, 1]

/-- The "is this element icy" test of `compute_node_type`: `interior` starts
`true` and is cleared as soon as some nodal thickness satisfies
`thickness < min_thickness`. -/
def elementIsIcy {α : Type*} [LinearOrder α] (H : ℤ → ℤ → α) (hmin : α) (i j : ℤ) : Bool :=
  decide (∀ k : Fin 4, ¬ H (i + iOffset k) (j + jOffset k) < hmin)

/-- The number of icy elements the node `(i, j)` belongs to: the element
loop of `compute_node_type` increments the per-node counter once for each
icy element incident to the node (elements are indexed by their lower-left
node, so node `(i, j)` belongs to elements `(i-1, j-1)`, `(i, j-1)`,
`(i-1, j)` and `(i, j)`). -/
def icyCount {α : Type*} [LinearOrder α] (H : ℤ → ℤ → α) (hmin : α) (i j : ℤ) : ℕ :=
  (if elementIsIcy H hmin (i - 1) (j - 1) then 1 else 0) +
  (if elementIsIcy H hmin i (j - 1) then 1 else 0) +
  (if elementIsIcy H hmin (i - 1) j then 1 else 0) +
  (if elementIsIcy H hmin i j then 1 else 0)

/-- The final `switch` of `compute_node_type`: count 4 gives INTERIOR,
count 0 gives EXTERIOR, anything else BOUNDARY. -/
def nodeType {α : Type*} [LinearOrder α] (H : ℤ → ℤ → α) (hmin : α) (i j : ℤ) : NodeKind :=
  match icyCount H hmin i j with
  | 4 => NodeKind.interior
  | 0 => NodeKind.exterior
  | _ => NodeKind.boundary

/-- Node classification as the claim words it, for comparison with
`nodeType`: an element is icy iff every nodal thickness strictly EXCEEDS
the minimum threshold. -/
def elementIsIcySpec {α : Type*} [LinearOrder α] (H : ℤ → ℤ → α) (hmin : α) (i j : ℤ) : Bool :=
  decide (∀ k : Fin 4, hmin < H (i + iOffset k) (j + jOffset k))

/-- The node class derived from `elementIsIcySpec` exactly as the claim
maps icy-element counts to classes. -/
def nodeTypeSpec {α : Type*} [LinearOrder α] (H : ℤ → ℤ → α) (hmin : α) (i j : ℤ) : NodeKind :=
  match (if elementIsIcySpec H hmin (i - 1) (j - 1) then 1 else 0) +
      (if elementIsIcySpec H hmin i (j - 1) then 1 else 0) +
      (if elementIsIcySpec H hmin (i - 1) j then 1 else 0) +
      (if elementIsIcySpec H hmin i j then (1 : ℕ) else 0) with
  | 4 => NodeKind.interior
  | 0 => NodeKind.exterior
  | _ => NodeKind.boundary

/-! ### remove_narrow_tongues.cc (claim C5)

Source: `remove_narrow_tongues`.  The cell-type mask predicates come from
`Mask.hh`, which is not among the sources.  Modelled from the spec: §6
lists the mask states ice-free (bedrock or ocean), grounded-ice,
floating-ice, ocean; `ice_free` holds for the two ice-free states,
`ice_free_ocean`, `grounded_ice` and `floating_ice` select single states.
-/

/-- Cell-type mask values (modelled from the spec, see section comment). -/
inductive CellKind where
  | iceFreeGround
  | iceFreeOcean
  | groundedIce
  | floatingIce
deriving DecidableEq

/-- Modelled from the spec: a cell is ice-free iff it carries no ice
(ice-free bedrock or ice-free ocean). -/
def ice_free : CellKind → Bool
  | CellKind.iceFreeGround => true
  | CellKind.iceFreeOcean => true
  | _ => false

/-- Modelled from the spec: the ice-free-ocean mask state. -/
def ice_free_ocean : CellKind → Bool := fun m => m = CellKind.iceFreeOcean

/-- Modelled from the spec: the grounded-ice mask state. -/
def grounded_ice : CellKind → Bool := fun m => m = CellKind.groundedIce

/-- Modelled from the spec: the floating-ice mask state. -/
def floating_ice : CellKind → Bool := fun m => m = CellKind.floatingIce

/-- The 3x3 neighborhood of mask values read by `mask.int_box(i, j)`. -/
structure MaskBox where
  ij : CellKind
  n : CellKind
  e : CellKind
  s : CellKind
  w : CellKind
  ne : CellKind
  nw : CellKind
  se : CellKind
  sw : CellKind

/-- The `BoxStencil<bool> ice_free` values of the 8 neighbors. -/
structure FreeBox where
  n : Bool
  e : Bool
  s : Bool
  w : Bool
  ne : Bool
  nw : Bool
  se : Bool
  sw : Bool

/-- Filling of the `ice_free` stencil in `remove_narrow_tongues`: a
grounded-ice center uses `ice_free_ocean` for its neighbors, a floating
center uses `ice_free`.  (An ice-free center is skipped before the stencil
is read, so its value is irrelevant.) -/
def iceFreeBox (M : MaskBox) : FreeBox :=
  if grounded_ice M.ij then
    { n := ice_free_ocean M.n, e := ice_free_ocean M.e, s := ice_free_ocean M.s
      w := ice_free_ocean M.w, ne := ice_free_ocean M.ne, nw := ice_free_ocean M.nw
      se := ice_free_ocean M.se, sw := ice_free_ocean M.sw }
  else
    { n := ice_free M.n, e := ice_free M.e, s := ice_free M.s
      w := ice_free M.w, ne := ice_free M.ne, nw := ice_free M.nw
      se := ice_free M.se, sw := ice_free M.sw }

/-- The four-way removal test of `remove_narrow_tongues` (one disjunct per
attachment direction W, N, E, S). -/
def noseCondition (f : FreeBox) : Bool :=
  (!f.w && f.nw && f.sw && f.n && f.s && f.e) ||
  (!f.n && f.nw && f.ne && f.w && f.e && f.s) ||
  (!f.e && f.ne && f.se && f.w && f.s && f.n) ||
  (!f.s && f.sw && f.se && f.w && f.e && f.n)

/-- The per-cell effect of `remove_narrow_tongues` on the ice thickness:
cells that are ice-free, or grounded with `bed >= sea_level`, are skipped;
otherwise the thickness is zeroed iff the removal test fires. -/
def remove_narrow_tongues_cell (M : MaskBox) (bed sea_level thickness : ℚ) : ℚ :=
  if ice_free M.ij || (grounded_ice M.ij && decide (bed ≥ sea_level)) then
    thickness
  else if noseCondition (iceFreeBox M) then 0 else thickness

/-- A grounded-ice cell surrounded by ice-free ocean on all 8 sides (the
claim's pure "nose" configuration). -/
def noseTestBox : MaskBox :=
  { ij := CellKind.groundedIce
    n := CellKind.iceFreeOcean, e := CellKind.iceFreeOcean
    s := CellKind.iceFreeOcean, w := CellKind.iceFreeOcean
    ne := CellKind.iceFreeOcean, nw := CellKind.iceFreeOcean
    se := CellKind.iceFreeOcean, sw := CellKind.iceFreeOcean }

/-- A grounded-ice cell attached on the W side and surrounded by ice-free
ocean on the other 7 sides (the claim's ice-tongue tip configuration). -/
def tongueTestBox : MaskBox :=
  { ij := CellKind.groundedIce
    n := CellKind.iceFreeOcean, e := CellKind.iceFreeOcean
    s := CellKind.iceFreeOcean, w := CellKind.groundedIce
    ne := CellKind.iceFreeOcean, nw := CellKind.iceFreeOcean
    se := CellKind.iceFreeOcean, sw := CellKind.iceFreeOcean }

/-! ### IceGrid.hh: grid iteration (claims C7 and C8)

Sources: classes `PointsWithGhosts` and `Points` in `IceGrid.hh`.
-/

/-- The member state of a `PointsWithGhosts` iterator. -/
structure PointsState where
  i : ℤ
  j : ℤ
  iFirst : ℤ
  iLast : ℤ
  jFirst : ℤ
  jLast : ℤ
  done : Bool
deriving DecidableEq

/-- The constructor `PointsWithGhosts(grid, stencil_width)`:
`m_i_first = xs - w`, `m_i_last = xs + xm + w - 1`, likewise for `j`;
starts at `(m_i_first, m_j_first)` with `m_done = false`. -/
def pwgStart (xs xm ys ym w : ℤ) : PointsState :=
  { i := xs - w, j := ys - w
    iFirst := xs - w, iLast := xs + xm + w - 1
    jFirst := ys - w, jLast := ys + ym + w - 1
    done := false }

/-- `PointsWithGhosts::next()`: advance `j`, wrap to the next row when `j`
passes `m_j_last`, and finish (resetting `i` to `m_i_first`) when `i`
passes `m_i_last`. -/
def pwgNext (s : PointsState) : PointsState :=
  let j1 := s.j + 1
  let s1 := if s.jLast < j1 then { s with j := s.jFirst, i := s.i + 1 } else { s with j := j1 }
  if s.iLast < s1.i then { s1 with i := s.iFirst, done := true } else s1

/-- Driving the iterator as the `for (PointsWithGhosts p(g,w); p; p.next())`
loop does: record `(i, j)` while `m_done` is false; `fuel` bounds the
number of visits. -/
def pwgRun : ℕ → PointsState → List (ℤ × ℤ)
  | 0, _ => []
  | n + 1, s => if s.done then [] else (s.i, s.j) :: pwgRun n (pwgNext s)

/-- The complete visit list of `PointsWithGhosts(grid, w)` on a grid whose
process owns `[xs, xs+xm) x [ys, ys+ym)`. -/
def pwgList (xs xm ys ym w : ℤ) : List (ℤ × ℤ) :=
  pwgRun ((xm + 2 * w).toNat * (ym + 2 * w).toNat) (pwgStart xs xm ys ym w)

/-- The visit list of `Points(grid)`, which is `PointsWithGhosts(grid, 0)`. -/
def pointsList (xs xm ys ym : ℤ) : List (ℤ × ℤ) :=
  pwgList xs xm ys ym 0

/-- Row-major enumeration of the `ni` by `nj` rectangle of indices starting
at `(i0, j0)` (outer loop over `i`, inner loop over `j`). -/
def rowMajor (i0 j0 : ℤ) (ni nj : ℕ) : List (ℤ × ℤ) :=
  (List.range ni).flatMap fun (a : ℕ) =>
    (List.range nj).map fun (b : ℕ) => (i0 + (a : ℤ), j0 + (b : ℤ))

/-- A per-process ownership block (`xs`, `xm`, `ys`, `ym` of one rank). -/
structure ProcBlock where
  xs : ℤ
  xm : ℤ
  ys : ℤ
  ym : ℤ

/-- A block owns the index pair `p` iff `p` lies in
`[xs, xs+xm) x [ys, ys+ym)`. -/
def ownsPt (b : ProcBlock) (p : ℤ × ℤ) : Prop :=
  b.xs ≤ p.1 ∧ p.1 < b.xs + b.xm ∧ b.ys ≤ p.2 ∧ p.2 < b.ys + b.ym

instance (b : ProcBlock) (p : ℤ × ℤ) : Decidable (ownsPt b p) := by
  unfold ownsPt
  infer_instance

/-- Membership of an index pair in the global index space
`[0, Mx) x [0, My)`. -/
def inGlobal (Mx My : ℕ) (p : ℤ × ℤ) : Prop :=
  0 ≤ p.1 ∧ p.1 < (Mx : ℤ) ∧ 0 ≤ p.2 ∧ p.2 < (My : ℤ)

instance (Mx My : ℕ) (p : ℤ × ℤ) : Decidable (inGlobal Mx My p) := by
  unfold inGlobal
  infer_instance

/-- The owned-only visit list of one process block. -/
def blockPoints (b : ProcBlock) : List (ℤ × ℤ) :=
  pointsList b.xs b.xm b.ys b.ym

/-! ### FETools.cc: element assembly and Dirichlet enforcement (claim C2)

Sources: `Element::reset`, `Element::mark_row_invalid`,
`Element::mark_col_invalid`, `Element::add_contribution`,
`DirichletData::constrain`, `DirichletData_Scalar::fix_jacobian`,
`DirichletData_Vector::fix_jacobian`.

`MatSetValuesBlockedStencil` is an external PETSc primitive; following the
source comment on `add_contribution` ("MatSetValuesBlockedStencil ignores
negative indexes, so values in K corresponding to locations marked using
mark_row_invalid() and mark_col_invalid() are ignored"), entries whose row
or column stencil carries a negative index are dropped.  The numeric value
of `m_invalid_dof` lives in `FETools.hh`, which is not among the sources;
any negative value gives the documented behavior, `-1` is used here.

Matrix entries are kept generic over an additive commutative monoid so
that the same development covers the scalar case (entry = one `double`)
and the vector-valued case (entry = one 2x2 block).
-/

/-- A PETSc `MatStencil` as used by the 2D FE code (the third slot is the
otherwise unused `k` member, which `mark_row_invalid` sets to 1). -/
structure Stencil where
  i : ℤ
  j : ℤ
  k : ℤ
deriving DecidableEq

/-- The invalid degree-of-freedom marker (see section comment). -/
def m_invalid_dof : ℤ := -1

/-- The stencil produced by `mark_row_invalid` / `mark_col_invalid`:
`i = j = m_invalid_dof`, `k = 1`. -/
def invalidStencil : Stencil := { i := m_invalid_dof, j := m_invalid_dof, k := 1 }

/-- A stencil is used by `MatSetValuesBlockedStencil` iff its indices are
non-negative (negative indexes are ignored). -/
def stencilValid (s : Stencil) : Prop := 0 ≤ s.i ∧ 0 ≤ s.j

instance (s : Stencil) : Decidable (stencilValid s) := by
  unfold stencilValid
  infer_instance

/-- The row stencils after `Element::reset(i, j)`: each of the four global
node positions, with rows of nodes outside the owned rectangle marked
invalid ("We do not ever sum into rows that are not owned by the local
rank"). -/
def elemRowsReset (g : ProcBlock) (i j : ℤ) (n : Fin 4) : Stencil :=
  if i + iOffset n < g.xs ∨ g.xs + g.xm - 1 < i + iOffset n ∨
      j + jOffset n < g.ys ∨ g.ys + g.ym - 1 < j + jOffset n then
    invalidStencil
  else { i := i + iOffset n, j := j + jOffset n, k := 0 }

/-- The column stencils after `Element::reset(i, j)` (`reset` never
invalidates columns). -/
def elemColsReset (i j : ℤ) (n : Fin 4) : Stencil :=
  { i := i + iOffset n, j := j + jOffset n, k := 0 }

/-- The Dirichlet test used throughout `DirichletData`: a node is
Dirichlet iff its indicator value exceeds 0.5. -/
def dirichletAt (d : ℤ → ℤ → ℚ) (i j : ℤ) : Prop := 1 / 2 < d i j

instance (d : ℤ → ℤ → ℚ) (i j : ℤ) : Decidable (dirichletAt d i j) := by
  unfold dirichletAt
  infer_instance

/-- Row stencils after `reset` followed by `DirichletData::constrain`,
which calls `mark_row_invalid` on every Dirichlet node of the element. -/
def elemRows (g : ProcBlock) (d : ℤ → ℤ → ℚ) (i j : ℤ) (n : Fin 4) : Stencil :=
  if dirichletAt d (i + iOffset n) (j + jOffset n) then invalidStencil
  else elemRowsReset g i j n

/-- Column stencils after `reset` followed by `constrain`, which calls
`mark_col_invalid` on every Dirichlet node of the element. -/
def elemCols (d : ℤ → ℤ → ℚ) (i j : ℤ) (n : Fin 4) : Stencil :=
  if dirichletAt d (i + iOffset n) (j + jOffset n) then invalidStencil
  else elemColsReset i j n

/-- A global assembled matrix: one entry (a scalar, or a 2x2 block in the
vector-valued case) per pair of global nodes. -/
abbrev GlobalMat (α : Type*) := (ℤ × ℤ) → (ℤ × ℤ) → α

/-- `Element::add_contribution` through `MatSetValuesBlockedStencil` with
`ADD_VALUES`: entry `K[t][s]` is added at global position
(row stencil t, column stencil s); contributions whose row or column was
invalidated are ignored. -/
def addContribution {α : Type*} [AddCommMonoid α] (rows cols : Fin 4 → Stencil)
    (K : Fin 4 → Fin 4 → α) (M : GlobalMat α) : GlobalMat α :=
  fun r c => M r c + ∑ t : Fin 4, ∑ s : Fin 4,
    if stencilValid (rows t) ∧ stencilValid (cols s) ∧
        (rows t).i = r.1 ∧ (rows t).j = r.2 ∧ (cols s).i = c.1 ∧ (cols s).j = c.2 then
      K t s
    else 0

/-- One element contribution: the element's position together with its
element-local matrix. -/
structure ElemContrib (α : Type*) where
  i : ℤ
  j : ℤ
  K : Fin 4 → Fin 4 → α

/-- The normal assembly loop: for every element, `reset`, `constrain`,
`add_contribution`, starting from the zeroed matrix
(`MatZeroEntries`). -/
def assemble {α : Type*} [AddCommMonoid α] (g : ProcBlock) (d : ℤ → ℤ → ℚ)
    (es : List (ElemContrib α)) : GlobalMat α :=
  es.foldl
    (fun M e => addContribution (elemRows g d e.i e.j) (elemCols d e.i e.j) e.K M)
    (fun _ _ => 0)

/-- `DirichletData_Scalar::fix_jacobian` and
`DirichletData_Vector::fix_jacobian`: for every owned node (visited with
the `Points(grid)` iterator) whose indicator exceeds 0.5, add `weight`
(resp. the 2x2 block `weight * I`) on the matrix diagonal with
`ADD_VALUES`. -/
def fixJacobian {α : Type*} [AddCommMonoid α] (g : ProcBlock) (d : ℤ → ℤ → ℚ) (v : α)
    (M : GlobalMat α) : GlobalMat α :=
  (pointsList g.xs g.xm g.ys g.ym).foldl
    (fun M p => fun r c =>
      M r c + if dirichletAt d p.1 p.2 ∧ r = p ∧ c = p then v else 0) M

/-- The 2x2 block inserted by the vector-valued `fix_jacobian`
(`identity[4] = {m_weight, 0, 0, m_weight}`, row-major). -/
def weightIdBlock (w : ℚ) : Fin 2 → Fin 2 → ℚ :=
  ![![w, 0], ![0, w]]

/-! ### Blatter.cc: element-Jacobian symmetry (claim C4)

Sources: `Blatter::jacobian_f`, `Blatter::jacobian_basal` and the
lower-triangle fill step of `Blatter::compute_jacobian`.

The 16x16 element matrix `K[t*2+d1][s*2+d2]` (8 nodes, 2 velocity
components) is indexed here as `K t d1 s d2` with `t s : Fin 8` and
`d1 d2 : Bool` (`false` = u-component, `true` = v-component).  The
quadrature data (weights, shape-function germs), the current velocity
iterate, ice hardness, basal yield stress and floatation are arbitrary;
the constitutive laws `effective_viscosity` (from `FlowLaw`) and
`drag_with_derivative` (from `basal_resistance`) are external and kept as
arbitrary functions returning a (value, derivative) pair.
-/

noncomputable section

/-- The germ (value and three physical derivatives) of a 3D shape function
at one quadrature point. -/
structure Germ3 where
  val : ℝ
  dx : ℝ
  dy : ℝ
  dz : ℝ

/-- A 2D vector (`Vector2`): horizontal velocity components u, v. -/
structure Vec2 where
  u : ℝ
  v : ℝ

/-- All inputs of one element's Jacobian computation. -/
structure BlatterElemData where
  /-- `element.n_pts()` -/
  Nq : ℕ
  /-- `element.weight(q)` -/
  W : ℕ → ℝ
  /-- `element.chi(q, k)` -/
  chi : ℕ → Fin 8 → Germ3
  /-- nodal velocity values (after the Dirichlet override) -/
  velocity : Fin 8 → Vec2
  /-- nodal ice hardness `B_nodal` -/
  hardness : Fin 8 → ℝ
  /-- `m_flow_law->effective_viscosity(B, gamma, &eta, &deta)` -/
  visc : ℝ → ℝ → ℝ × ℝ
  /-- `face.n_pts()` for the bottom face -/
  NqF : ℕ
  /-- `face.weight(q)` -/
  Wf : ℕ → ℝ
  /-- `face.chi(q, k)` (scalar values on the face) -/
  chiF : ℕ → Fin 8 → ℝ
  /-- nodal basal yield stress `tauc_nodal` -/
  taucN : Fin 8 → ℝ
  /-- nodal floatation indicator `f_nodal` -/
  fN : Fin 8 → ℝ
  /-- `m_basal_sliding_law->drag_with_derivative(tauc, u, v, &beta, &dbeta)` -/
  drag : ℝ → ℝ → ℝ → ℝ × ℝ
  /-- whether this is a bottom-level element (`k == 0`) -/
  bottom : Bool

/-- `element.evaluate`: value of a nodal field at quadrature point `q`. -/
def evalVal (chi : ℕ → Fin 8 → Germ3) (f : Fin 8 → ℝ) (q : ℕ) : ℝ :=
  ∑ k : Fin 8, (chi q k).val * f k

/-- `element.evaluate`: x-derivative of a nodal field at point `q`. -/
def evalDx (chi : ℕ → Fin 8 → Germ3) (f : Fin 8 → ℝ) (q : ℕ) : ℝ :=
  ∑ k : Fin 8, (chi q k).dx * f k

/-- `element.evaluate`: y-derivative of a nodal field at point `q`. -/
def evalDy (chi : ℕ → Fin 8 → Germ3) (f : Fin 8 → ℝ) (q : ℕ) : ℝ :=
  ∑ k : Fin 8, (chi q k).dy * f k

/-- `element.evaluate`: z-derivative of a nodal field at point `q`. -/
def evalDz (chi : ℕ → Fin 8 → Germ3) (f : Fin 8 → ℝ) (q : ℕ) : ℝ :=
  ∑ k : Fin 8, (chi q k).dz * f k

/-- `u_x[q].u` in `jacobian_f`. -/
def bUx (D : BlatterElemData) (q : ℕ) : ℝ := evalDx D.chi (fun k => (D.velocity k).u) q

/-- `u_y[q].u` in `jacobian_f`. -/
def bUy (D : BlatterElemData) (q : ℕ) : ℝ := evalDy D.chi (fun k => (D.velocity k).u) q

/-- `u_z[q].u` in `jacobian_f`. -/
def bUz (D : BlatterElemData) (q : ℕ) : ℝ := evalDz D.chi (fun k => (D.velocity k).u) q

/-- `u_x[q].v` in `jacobian_f`. -/
def bVx (D : BlatterElemData) (q : ℕ) : ℝ := evalDx D.chi (fun k => (D.velocity k).v) q

/-- `u_y[q].v` in `jacobian_f`. -/
def bVy (D : BlatterElemData) (q : ℕ) : ℝ := evalDy D.chi (fun k => (D.velocity k).v) q

/-- `u_z[q].v` in `jacobian_f`. -/
def bVz (D : BlatterElemData) (q : ℕ) : ℝ := evalDz D.chi (fun k => (D.velocity k).v) q

/-- The effective strain-rate invariant `gamma` at quadrature point `q`:
`ux*ux + vy*vy + ux*vy + 0.25*((uy+vx)^2 + uz^2 + vz^2)`. -/
def bGamma (D : BlatterElemData) (q : ℕ) : ℝ :=
  bUx D q * bUx D q + bVy D q * bVy D q + bUx D q * bVy D q +
    0.25 * ((bUy D q + bVx D q) * (bUy D q + bVx D q) +
      bUz D q * bUz D q + bVz D q * bVz D q)

/-- Ice hardness `B[q]` at quadrature point `q`. -/
def bB (D : BlatterElemData) (q : ℕ) : ℝ := evalVal D.chi D.hardness q

/-- `eta` returned by `effective_viscosity` at point `q`. -/
def bEta (D : BlatterElemData) (q : ℕ) : ℝ := (D.visc (bB D q) (bGamma D q)).1

/-- `deta` returned by `effective_viscosity` at point `q`. -/
def bDeta (D : BlatterElemData) (q : ℕ) : ℝ := (D.visc (bB D q) (bGamma D q)).2

/-- `gamma_u` for trial function `s` at point `q`. -/
def bGammaU (D : BlatterElemData) (q : ℕ) (s : Fin 8) : ℝ :=
  2.0 * bUx D q * (D.chi q s).dx + bVy D q * (D.chi q s).dx +
    0.5 * (D.chi q s).dy * (bUy D q + bVx D q) + 0.5 * bUz D q * (D.chi q s).dz

/-- `gamma_v` for trial function `s` at point `q`. -/
def bGammaV (D : BlatterElemData) (q : ℕ) (s : Fin 8) : ℝ :=
  2.0 * bVy D q * (D.chi q s).dy + bUx D q * (D.chi q s).dy +
    0.5 * (D.chi q s).dx * (bUy D q + bVx D q) + 0.5 * bVz D q * (D.chi q s).dz

/-- `eta_u = deta * gamma_u`. -/
def bEtaU (D : BlatterElemData) (q : ℕ) (s : Fin 8) : ℝ := bDeta D q * bGammaU D q s

/-- `eta_v = deta * gamma_v`. -/
def bEtaV (D : BlatterElemData) (q : ℕ) (s : Fin 8) : ℝ := bDeta D q * bGammaV D q s

/-- The four entries of the 2x2 block `(t, s)` added by `jacobian_f` at one
quadrature point (Picard part plus Newton part), before multiplication by
the quadrature weight. -/
def jacobianFEntry (D : BlatterElemData) (q : ℕ) (t : Fin 8) (d1 : Bool)
    (s : Fin 8) (d2 : Bool) : ℝ :=
  match d1, d2 with
  | false, false =>
    bEta D q * (4.0 * (D.chi q t).dx * (D.chi q s).dx + (D.chi q t).dy * (D.chi q s).dy +
        (D.chi q t).dz * (D.chi q s).dz) +
      bEtaU D q s * ((D.chi q t).dx * (4.0 * bUx D q + 2.0 * bVy D q) +
        (D.chi q t).dy * (bUy D q + bVx D q) + (D.chi q t).dz * bUz D q)
  | false, true =>
    bEta D q * (2.0 * (D.chi q t).dx * (D.chi q s).dy + (D.chi q t).dy * (D.chi q s).dx) +
      bEtaV D q s * ((D.chi q t).dx * (4.0 * bUx D q + 2.0 * bVy D q) +
        (D.chi q t).dy * (bUy D q + bVx D q) + (D.chi q t).dz * bUz D q)
  | true, false =>
    bEta D q * (2.0 * (D.chi q t).dy * (D.chi q s).dx + (D.chi q t).dx * (D.chi q s).dy) +
      bEtaU D q s * ((D.chi q t).dx * (bUy D q + bVx D q) +
        (D.chi q t).dy * (4.0 * bVy D q + 2.0 * bUx D q) + (D.chi q t).dz * bVz D q)
  | true, true =>
    bEta D q * (4.0 * (D.chi q t).dy * (D.chi q s).dy + (D.chi q t).dx * (D.chi q s).dx +
        (D.chi q t).dz * (D.chi q s).dz) +
      bEtaV D q s * ((D.chi q t).dx * (bUy D q + bVx D q) +
        (D.chi q t).dy * (4.0 * bVy D q + 2.0 * bUx D q) + (D.chi q t).dz * bVz D q)

/-- `Blatter::jacobian_f`: sums weighted entries over all quadrature
points, writing only the blocks with `s >= t` (the loop `for s = t ...`);
all other entries stay zero. -/
def jacobianF (D : BlatterElemData) (t : Fin 8) (d1 : Bool) (s : Fin 8) (d2 : Bool) : ℝ :=
  if t ≤ s then ∑ q ∈ Finset.range D.Nq, D.W q * jacobianFEntry D q t d1 s d2 else 0

/-- `face.evaluate`: value of a nodal field at face quadrature point `q`. -/
def faceEval (chiF : ℕ → Fin 8 → ℝ) (f : Fin 8 → ℝ) (q : ℕ) : ℝ :=
  ∑ k : Fin 8, chiF q k * f k

/-- `u[q].u` on the bottom face in `jacobian_basal`. -/
def bUf (D : BlatterElemData) (q : ℕ) : ℝ := faceEval D.chiF (fun k => (D.velocity k).u) q

/-- `u[q].v` on the bottom face in `jacobian_basal`. -/
def bVf (D : BlatterElemData) (q : ℕ) : ℝ := faceEval D.chiF (fun k => (D.velocity k).v) q

/-- `tauc[q]` on the bottom face. -/
def bTauc (D : BlatterElemData) (q : ℕ) : ℝ := faceEval D.chiF D.taucN q

/-- `floatation[q]` on the bottom face. -/
def bFloat (D : BlatterElemData) (q : ℕ) : ℝ := faceEval D.chiF D.fN q

/-- `beta`: the basal drag coefficient; zero unless grounded
(`floatation[q] <= 0.0`). -/
def bBeta (D : BlatterElemData) (q : ℕ) : ℝ :=
  if bFloat D q ≤ 0 then (D.drag (bTauc D q) (bUf D q) (bVf D q)).1 else 0

/-- `dbeta`: the drag derivative; zero unless grounded. -/
def bDbeta (D : BlatterElemData) (q : ℕ) : ℝ :=
  if bFloat D q ≤ 0 then (D.drag (bTauc D q) (bUf D q) (bVf D q)).2 else 0

/-- The four entries of block `(t, s)` added by `jacobian_basal` at one
face quadrature point, before multiplication by the face weight. -/
def jacobianBasalEntry (D : BlatterElemData) (q : ℕ) (t : Fin 8) (d1 : Bool)
    (s : Fin 8) (d2 : Bool) : ℝ :=
  match d1, d2 with
  | false, false => D.chiF q t * D.chiF q s * (bBeta D q + bDbeta D q * bUf D q * bUf D q)
  | false, true => D.chiF q t * D.chiF q s * bDbeta D q * bUf D q * bVf D q
  | true, false => D.chiF q t * D.chiF q s * bDbeta D q * bVf D q * bUf D q
  | true, true => D.chiF q t * D.chiF q s * (bBeta D q + bDbeta D q * bVf D q * bVf D q)

/-- `Blatter::jacobian_basal`: sums weighted entries over all face
quadrature points; the trial-function loop runs over ALL `s` (no
upper-triangle restriction). -/
def jacobianBasal (D : BlatterElemData) (t : Fin 8) (d1 : Bool) (s : Fin 8) (d2 : Bool) : ℝ :=
  ∑ q ∈ Finset.range D.NqF, D.Wf q * jacobianBasalEntry D q t d1 s d2

/-- The element matrix before the fill step: the `jacobian_f` contribution
plus, for bottom-level elements, the `jacobian_basal` contribution. -/
def blatterElementK (D : BlatterElemData) (t : Fin 8) (d1 : Bool) (s : Fin 8) (d2 : Bool) : ℝ :=
  jacobianF D t d1 s d2 + if D.bottom then jacobianBasal D t d1 s d2 else 0

/-- The explicit lower-triangle fill of `Blatter::compute_jacobian`
(for `s < t`: `K[t*2+d1][s*2+d2] = K[s*2+d2][t*2+d1]`, the reads being of
entries the fill never writes). -/
def fillLower (K : Fin 8 → Bool → Fin 8 → Bool → ℝ) : Fin 8 → Bool → Fin 8 → Bool → ℝ :=
  fun t d1 s d2 => if s < t then K s d2 t d1 else K t d1 s d2

end

/-! ## Theorems -/

theorem pwgRun_succ (n : ℕ) (s : PointsState) :
    pwgRun (n + 1) s = if s.done then [] else (s.i, s.j) :: pwgRun n (pwgNext s) := rfl

theorem pwgNext_mid (iF iL jF jL i jc : ℤ) (hj : jc + 1 ≤ jL) (hi : i ≤ iL) :
    pwgNext ⟨i, jc, iF, iL, jF, jL, false⟩ = ⟨i, jc + 1, iF, iL, jF, jL, false⟩ := by
  have h1 : ¬ jL < jc + 1 := by omega
  have h2 : ¬ iL < i := by omega
  simp [pwgNext, h1, h2]

theorem pwgNext_rowend_cont (iF iL jF jL i jc : ℤ) (hj : jL < jc + 1) (hi : i + 1 ≤ iL) :
    pwgNext ⟨i, jc, iF, iL, jF, jL, false⟩ = ⟨i + 1, jF, iF, iL, jF, jL, false⟩ := by
  have h2 : ¬ iL < i + 1 := by omega
  simp [pwgNext, hj, h2]

theorem pwgNext_rowend_done (iF iL jF jL i jc : ℤ) (hj : jL < jc + 1) (hi : iL < i + 1) :
    pwgNext ⟨i, jc, iF, iL, jF, jL, false⟩ = ⟨iF, jF, iF, iL, jF, jL, true⟩ := by
  simp [pwgNext, hj, hi]

theorem pwgRun_done (n : ℕ) (s : PointsState) (h : s.done = true) : pwgRun n s = [] := by
  cases n with
  | zero => rfl
  | succ m => rw [pwgRun_succ, if_pos h]

theorem map_range_shift (i0 jc : ℤ) (m : ℕ) :
    ((List.range (m + 1)).map fun (b : ℕ) => ((i0, jc + (b : ℤ)) : ℤ × ℤ)) =
      (i0, jc) :: ((List.range m).map fun (b : ℕ) => (i0, (jc + 1) + (b : ℤ))) := by
  rw [List.range_succ_eq_map, List.map_cons, List.map_map]
  refine congrArg₂ _ (by simp) (List.map_congr_left fun b _ => ?_)
  simp [Function.comp, Nat.succ_eq_add_one]
  ring

/-- One full row of the iterator: starting at column `jc` of row `i` with
`m` columns left in the row, the iterator visits them left to right and
ends up at the start of the next row (or in the final "done" state). -/
theorem pwgRun_row (iF iL jF jL : ℤ) (m : ℕ) (hm : 1 ≤ m) :
    ∀ (extra : ℕ) (i jc : ℤ), jc + m = jL + 1 → i ≤ iL →
    pwgRun (m + extra) ⟨i, jc, iF, iL, jF, jL, false⟩ =
      ((List.range m).map fun (b : ℕ) => (i, jc + (b : ℤ))) ++
        pwgRun extra
          (if iL < i + 1 then ⟨iF, jF, iF, iL, jF, jL, true⟩
           else ⟨i + 1, jF, iF, iL, jF, jL, false⟩) := by
  induction m with
  | zero => omega
  | succ m ih =>
    intro extra i jc hj hi
    by_cases hm0 : m = 0
    · subst hm0
      rw [show 1 + extra = extra + 1 from Nat.add_comm 1 extra, pwgRun_succ, if_neg (by simp)]
      by_cases hend : iL < i + 1
      · rw [pwgNext_rowend_done iF iL jF jL i jc (by omega) hend,
          pwgRun_done extra _ rfl, if_pos hend, pwgRun_done extra _ rfl]
        simp [show List.range 1 = [0] from rfl]
      · rw [pwgNext_rowend_cont iF iL jF jL i jc (by omega) (by omega), if_neg hend]
        simp [show List.range 1 = [0] from rfl]
    · have hm1 : 1 ≤ m := by omega
      rw [show m + 1 + extra = (m + extra) + 1 from by omega, pwgRun_succ, if_neg (by simp),
        pwgNext_mid iF iL jF jL i jc (by omega) hi,
        ih hm1 extra i (jc + 1) (by omega) hi, map_range_shift]
      simp

theorem flatMap_range_shift (i0 j0 : ℤ) (r nj : ℕ) :
    ((List.range (r + 1)).flatMap fun (a : ℕ) =>
        (List.range nj).map fun (b : ℕ) => ((i0 + (a : ℤ), j0 + (b : ℤ)) : ℤ × ℤ)) =
      ((List.range nj).map fun (b : ℕ) => (i0, j0 + (b : ℤ))) ++
        ((List.range r).flatMap fun (a : ℕ) =>
          (List.range nj).map fun (b : ℕ) => ((i0 + 1) + (a : ℤ), j0 + (b : ℤ))) := by
  rw [List.range_succ_eq_map, List.flatMap_cons, List.flatMap_map]
  refine congrArg₂ _ ?_ (congrArg _ (funext fun a => List.map_congr_left fun b _ => ?_))
  · exact List.map_congr_left fun b _ => by simp
  · simp [Nat.succ_eq_add_one]
    ring

/-- Stacking rows: starting at the beginning of a row with `r` rows left,
the iterator traverses the remaining `r x nj` sub-rectangle in row-major
order, consuming exactly `r * nj` visits. -/
theorem pwgRun_rows (iF iL jF jL : ℤ) (nj : ℕ) (hnj : 1 ≤ nj)
    (hjL : jF + (nj : ℤ) = jL + 1) :
    ∀ (r : ℕ) (i : ℤ), i + r = iL + 1 →
    pwgRun (r * nj) ⟨i, jF, iF, iL, jF, jL, false⟩ =
      (List.range r).flatMap fun (a : ℕ) =>
        (List.range nj).map fun (b : ℕ) => (i + (a : ℤ), jF + (b : ℤ)) := by
  intro r
  induction r with
  | zero => intro i _; simp [pwgRun]
  | succ r ih =>
    intro i hir
    rw [show (r + 1) * nj = nj + r * nj from by ring,
      pwgRun_row iF iL jF jL nj hnj (r * nj) i jF (by omega) (by omega),
      flatMap_range_shift]
    refine congrArg₂ _ rfl ?_
    cases r with
    | zero =>
      rw [if_pos (by omega)]
      simp [pwgRun_done]
    | succ r' =>
      rw [if_neg (by omega), ih (i + 1) (by omega)]

/-- The complete `PointsWithGhosts` traversal equals the row-major listing
of the halo-extended rectangle. -/
theorem pwgList_eq_rowMajor (xs xm ys ym w : ℤ) (hx : 1 ≤ xm) (hy : 1 ≤ ym) (hw : 0 ≤ w) :
    pwgList xs xm ys ym w =
      rowMajor (xs - w) (ys - w) (xm + 2 * w).toNat (ym + 2 * w).toNat := by
  unfold pwgList pwgStart rowMajor
  rw [pwgRun_rows (xs - w) (xs + xm + w - 1) (ys - w) (ys + ym + w - 1)
    (ym + 2 * w).toNat (by omega) (by omega) (xm + 2 * w).toNat (xs - w) (by omega)]

theorem count_row (i0 j0 : ℤ) (nj : ℕ) (p : ℤ × ℤ) :
    ((List.range nj).map fun (b : ℕ) => ((i0, j0 + (b : ℤ)) : ℤ × ℤ)).count p =
      if p.1 = i0 ∧ j0 ≤ p.2 ∧ p.2 < j0 + (nj : ℤ) then 1 else 0 := by
  induction nj with
  | zero =>
    rw [if_neg (by push_cast; omega)]
    simp
  | succ n ih =>
    rw [List.range_succ, List.map_append, List.count_append, ih]
    simp only [List.map_cons, List.map_nil, List.count_cons, List.count_nil, beq_iff_eq,
      Prod.ext_iff]
    push_cast
    split_ifs <;> omega

theorem count_rowMajor (i0 j0 : ℤ) (ni nj : ℕ) (p : ℤ × ℤ) :
    (rowMajor i0 j0 ni nj).count p =
      if i0 ≤ p.1 ∧ p.1 < i0 + (ni : ℤ) ∧ j0 ≤ p.2 ∧ p.2 < j0 + (nj : ℤ) then 1 else 0 := by
  induction ni with
  | zero =>
    rw [if_neg (by push_cast; omega)]
    simp [rowMajor]
  | succ n ih =>
    unfold rowMajor at ih ⊢
    rw [List.range_succ, List.flatMap_append, List.count_append, ih,
      List.flatMap_cons, List.flatMap_nil, List.append_nil, count_row]
    push_cast
    split_ifs <;> omega

/-- Claim C7 counterexample: on a 2x2 single-process non-periodic grid
(`Mx = My = 2`, the process owning all of it), `PointsWithGhosts(grid, 1)`
visits the index pair `(-1, -1)`, which lies outside the valid global
index range `[0, 1]` (so nothing was clipped) and differs from the
mod-2 wrap of `-1` (which is `1`, so nothing was wrapped either). -/
theorem c7_unclipped_counterexample :
    ((-1, -1) : ℤ × ℤ) ∈ pwgList 0 2 0 2 1 ∧
    ¬ (0 ≤ (-1 : ℤ)) ∧
    (-1 : ℤ) % 2 = 1 ∧ (-1 : ℤ) ≠ (-1 : ℤ) % 2 := by
  refine ⟨by decide, by decide, by decide, by decide⟩

/-- Claim C7 (amended: no clipping and no periodic wrapping take place):
`PointsWithGhosts(grid, w)` visits exactly the owned index rectangle
extended by a halo of width `w` in each direction, in row-major order,
each pair exactly once, with the raw (unclipped, unwrapped) indices,
independently of the grid's periodicity. -/
theorem c7_ghosted_iteration (xs xm ys ym w : ℤ) (hx : 1 ≤ xm) (hy : 1 ≤ ym) (hw : 0 ≤ w) :
    pwgList xs xm ys ym w =
      rowMajor (xs - w) (ys - w) (xm + 2 * w).toNat (ym + 2 * w).toNat ∧
    ∀ p : ℤ × ℤ, (pwgList xs xm ys ym w).count p =
      if xs - w ≤ p.1 ∧ p.1 < xs + xm + w ∧ ys - w ≤ p.2 ∧ p.2 < ys + ym + w then 1
      else 0 := by
  refine ⟨pwgList_eq_rowMajor xs xm ys ym w hx hy hw, fun p => ?_⟩
  rw [pwgList_eq_rowMajor xs xm ys ym w hx hy hw, count_rowMajor,
    Int.toNat_of_nonneg (by omega : (0 : ℤ) ≤ xm + 2 * w),
    Int.toNat_of_nonneg (by omega : (0 : ℤ) ≤ ym + 2 * w)]
  refine if_congr ?_ rfl rfl
  constructor <;> intro h <;> omega

/-- Witness for C7 on the block `xs = 0, xm = 2, ys = 0, ym = 1` with halo
width 1. -/
theorem c7_ghosted_iteration_witness :
    ((1 : ℤ) ≤ 2 ∧ (1 : ℤ) ≤ 1 ∧ (0 : ℤ) ≤ 1) ∧
    pwgList 0 2 0 1 1 = rowMajor (-1) (-1) 4 3 :=
  ⟨⟨by norm_num, le_refl 1, by norm_num⟩, by
    have h := (c7_ghosted_iteration 0 2 0 1 1 (by norm_num) (by norm_num) (by norm_num)).1
    norm_num at h
    exact h⟩

theorem pointsList_count (xs xm ys ym : ℤ) (hx : 1 ≤ xm) (hy : 1 ≤ ym) (p : ℤ × ℤ) :
    (pointsList xs xm ys ym).count p =
      if xs ≤ p.1 ∧ p.1 < xs + xm ∧ ys ≤ p.2 ∧ p.2 < ys + ym then 1 else 0 := by
  unfold pointsList
  rw [pwgList_eq_rowMajor xs xm ys ym 0 hx hy le_rfl, count_rowMajor,
    Int.toNat_of_nonneg (by omega : (0 : ℤ) ≤ xm + 2 * 0),
    Int.toNat_of_nonneg (by omega : (0 : ℤ) ≤ ym + 2 * 0)]
  refine if_congr ?_ rfl rfl
  constructor <;> intro h <;> omega

theorem blockPoints_count (b : ProcBlock) (hx : 1 ≤ b.xm) (hy : 1 ≤ b.ym) (p : ℤ × ℤ) :
    (blockPoints b).count p = if ownsPt b p then 1 else 0 :=
  pointsList_count b.xs b.xm b.ys b.ym hx hy p

theorem count_flatMap_blocks (bs : List ProcBlock)
    (hvalid : ∀ b ∈ bs, 1 ≤ b.xm ∧ 1 ≤ b.ym) (p : ℤ × ℤ) :
    (bs.flatMap blockPoints).count p = bs.countP fun b => decide (ownsPt b p) := by
  induction bs with
  | nil => simp
  | cons b rest ih =>
    rw [List.flatMap_cons, List.count_append, List.countP_cons,
      blockPoints_count b (hvalid b (by simp)).1 (hvalid b (by simp)).2 p,
      ih fun c hc => hvalid c (by simp [hc])]
    by_cases h : ownsPt b p <;> simp [h, Nat.add_comm]

/-- Claim C8: `Points(grid)` visits exactly the owned rectangle
`[xs, xs+xm) x [ys, ys+ym)`, in row-major order, each pair exactly once
and nothing else; and whenever the per-process ownership blocks partition
the global index space (each global pair owned by exactly one block), the
concatenation of the per-process owned-only traversals covers the global
index space exactly once — no gaps, no overlaps. -/
theorem c8_owned_iteration_partition :
    (∀ xs xm ys ym : ℤ, 1 ≤ xm → 1 ≤ ym →
      pointsList xs xm ys ym = rowMajor xs ys xm.toNat ym.toNat ∧
      ∀ p : ℤ × ℤ, (pointsList xs xm ys ym).count p =
        if xs ≤ p.1 ∧ p.1 < xs + xm ∧ ys ≤ p.2 ∧ p.2 < ys + ym then 1 else 0) ∧
    (∀ (Mx My : ℕ) (bs : List ProcBlock),
      (∀ b ∈ bs, 1 ≤ b.xm ∧ 1 ≤ b.ym) →
      (∀ p : ℤ × ℤ, (bs.countP fun b => decide (ownsPt b p)) =
        if inGlobal Mx My p then 1 else 0) →
      ∀ p : ℤ × ℤ, (bs.flatMap blockPoints).count p =
        if inGlobal Mx My p then 1 else 0) := by
  constructor
  · intro xs xm ys ym hx hy
    constructor
    · have h := pwgList_eq_rowMajor xs xm ys ym 0 hx hy le_rfl
      unfold pointsList
      rw [h]
      norm_num
    · exact fun p => pointsList_count xs xm ys ym hx hy p
  · intro Mx My bs hvalid hpart p
    rw [count_flatMap_blocks bs hvalid p, hpart p]

/-- Witness for C8: a single process owning the whole 2x2 global grid. -/
theorem c8_owned_iteration_partition_witness :
    ((1 : ℤ) ≤ 2 ∧
      (∀ b ∈ ([⟨0, 2, 0, 2⟩] : List ProcBlock), 1 ≤ b.xm ∧ 1 ≤ b.ym) ∧
      (∀ p : ℤ × ℤ, (([⟨0, 2, 0, 2⟩] : List ProcBlock).countP
          fun b => decide (ownsPt b p)) = if inGlobal 2 2 p then 1 else 0)) ∧
    pointsList 0 2 0 2 = rowMajor 0 0 2 2 ∧
    (([⟨0, 2, 0, 2⟩] : List ProcBlock).flatMap blockPoints).count (1, 1) =
      if inGlobal 2 2 (1, 1) then 1 else 0 := by
  have hvalid : ∀ b ∈ ([⟨0, 2, 0, 2⟩] : List ProcBlock), 1 ≤ b.xm ∧ 1 ≤ b.ym := by
    intro b hb
    simp only [List.mem_singleton] at hb
    subst hb
    exact ⟨by norm_num, by norm_num⟩
  have hpart : ∀ p : ℤ × ℤ, (([⟨0, 2, 0, 2⟩] : List ProcBlock).countP
      fun b => decide (ownsPt b p)) = if inGlobal 2 2 p then 1 else 0 := by
    intro p
    rw [List.countP_cons, List.countP_nil]
    by_cases h : inGlobal 2 2 p
    · rw [if_pos h]
      have ho : ownsPt ⟨0, 2, 0, 2⟩ p := by
        obtain ⟨h1, h2, h3, h4⟩ := h
        unfold ownsPt
        dsimp only
        push_cast at h2 h4
        omega
      simp [ho]
    · rw [if_neg h]
      have ho : ¬ ownsPt ⟨0, 2, 0, 2⟩ p := by
        intro hc
        unfold ownsPt at hc
        dsimp only at hc
        refine h ?_
        unfold inGlobal
        push_cast
        omega
      simp [ho]
  refine ⟨⟨by norm_num, hvalid, hpart⟩, ?_, ?_⟩
  · have h := (c8_owned_iteration_partition.1 0 2 0 2 (by norm_num) (by norm_num)).1
    norm_num at h
    exact h
  · exact c8_owned_iteration_partition.2 2 2 [⟨0, 2, 0, 2⟩] hvalid hpart (1, 1)

/-- Claim C1 (code_bug evidence): `dirichlet_scale` as implemented does not
equal the specification's `dx·dy·dz·(1/dx²+1/dy²+1/dz²)`.  At the concrete
input `dx = 1, dy = 1, dz = 2` the code yields `6` (because `1.0 / dz * dz`
evaluates to `1`), while the specified formula yields `9/2`.  The residual
and Jacobian-diagonal of an owned EXTERIOR node both use exactly this
(faulty) scale. -/
theorem c1_dirichlet_scale_bug :
    dirichlet_scale 1 1 2 = 6 ∧
    dirichlet_scale_spec 1 1 2 = 9 / 2 ∧
    (6 : ℝ) ≠ 9 / 2 ∧
    (∀ x : ℝ, residual_exterior 1 1 4 0.1 3 x = dirichlet_scale 1 1 2 * (x - u_exterior)) ∧
    jacobian_exterior_diagonal 1 1 4 0.1 3 = dirichlet_scale 1 1 2 := by
  refine ⟨by norm_num [dirichlet_scale], by norm_num [dirichlet_scale_spec], by norm_num,
    fun x => ?_, ?_⟩
  · have h : node_dz 4 0.1 3 = 2 := by
      norm_num [node_dz]
    rw [residual_exterior, h]
  · have h : node_dz 4 0.1 3 = 2 := by
      norm_num [node_dz]
    rw [jacobian_exterior_diagonal, h]

/-- Claim C10: partition of unity of the reference shape functions.  For
every reference point, the four Q1 basis values of `q1_chi` sum to 1 and
their xi- and eta-derivatives sum to 0; likewise for the three P1 basis
functions of `p1_chi` together with the zero dummy fourth one. -/
theorem c10_partition_of_unity (xi eta : ℝ) :
    (∑ k : Fin 4, (q1_chi k xi eta).val) = 1 ∧
    (∑ k : Fin 4, (q1_chi k xi eta).dx) = 0 ∧
    (∑ k : Fin 4, (q1_chi k xi eta).dy) = 0 ∧
    (∑ k : Fin 4, (p1_chi k xi eta).val) = 1 ∧
    (∑ k : Fin 4, (p1_chi k xi eta).dx) = 0 ∧
    (∑ k : Fin 4, (p1_chi k xi eta).dy) = 0 := by
  refine ⟨?_, ?_, ?_, ?_, ?_, ?_⟩ <;>
    simp [Fin.sum_univ_four, q1_chi, p1_chi, q1_xi, q1_eta] <;> ring

/-- Claim C6: with unit length scaling (`L = 1`), the stored weights of the
4-, 9- and 16-point Q1 Gaussian quadratures sum to `dx·dy`, the physical
element area, and the 3-point P1 weights sum to `dx·dy/2`, the triangle
area (for each of the four embedded triangles). -/
theorem c6_quadrature_weight_sums (dx dy : ℝ) :
    (q1Quadrature4W dx dy 1).sum = dx * dy ∧
    (q1Quadrature9W dx dy 1).sum = dx * dy ∧
    (q1Quadrature16W dx dy 1).sum = dx * dy ∧
    (∀ N : Fin 4, (p1Quadrature3W N dx dy 1).sum = dx * dy / 2) := by
  refine ⟨?_, ?_, ?_, fun N => ?_⟩
  · simp [q1Quadrature4W, initWeights, tensorWeights, weights2fun, uniformQxJ, det2,
      List.range_succ]
    ring
  · simp [q1Quadrature9W, initWeights, tensorWeights, weights3fun, uniformQxJ, det2,
      List.range_succ]
    ring
  · simp [q1Quadrature16W, initWeights, tensorWeights, weights4fun, uniformQxJ, det2,
      List.range_succ]
    ring
  · fin_cases N <;>
      simp [p1Quadrature3W, initWeights, p1J, det2] <;> ring

theorem padAux_fst (L : ℕ) (C k : ℕ) : (padAux L (C, k)).1 = 2 ^ L * C := by
  induction L generalizing C k with
  | zero => simp [padAux]
  | succ n ih =>
    rw [padAux, ih]
    ring

theorem le_two_mul_padStep (k : ℕ) : k ≤ 2 * padStep k := by
  unfold padStep
  split <;> omega

theorem padAux_snd_ge (L : ℕ) (C k : ℕ) : k ≤ 2 ^ L * (padAux L (C, k)).2 := by
  induction L generalizing C k with
  | zero => simp [padAux]
  | succ n ih =>
    rw [padAux]
    calc k ≤ 2 * padStep k := le_two_mul_padStep k
    _ ≤ 2 * (2 ^ n * (padAux n (2 * C, padStep k)).2) :=
      Nat.mul_le_mul_left 2 (ih (2 * C) (padStep k))
    _ = 2 ^ (n + 1) * (padAux n (2 * C, padStep k)).2 := by ring

theorem updateLast_length (l : List ℤ) (p : ℤ) : (updateLast l p).length = l.length := by
  induction l with
  | nil => rfl
  | cons a rest ih =>
    cases rest with
    | nil => rfl
    | cons b t => simpa [updateLast] using ih

theorem updateLast_getLast? (l : List ℤ) (p : ℤ) (h : l ≠ []) :
    (updateLast l p).getLast? = Option.map (fun a => a + p) l.getLast? := by
  induction l with
  | nil => exact absurd rfl h
  | cons a rest ih =>
    cases rest with
    | nil => rfl
    | cons b t =>
      obtain ⟨c, l', hcl⟩ : ∃ c l', updateLast (b :: t) p = c :: l' := by
        cases h' : updateLast (b :: t) p with
        | nil =>
          have := updateLast_length (b :: t) p
          rw [h'] at this
          simp at this
        | cons c l' => exact ⟨c, l', rfl⟩
      rw [updateLast, hcl, List.getLast?_cons_cons, ← hcl, List.getLast?_cons_cons]
      exact ih (by simp)

theorem updateLast_get? (l : List ℤ) (p : ℤ) (m : ℕ) (h : m + 1 < l.length) :
    (updateLast l p).get? m = l.get? m := by
  induction l generalizing m with
  | nil => rfl
  | cons a rest ih =>
    cases rest with
    | nil => simp at h
    | cons b t =>
      cases m with
      | zero => rfl
      | succ m' =>
        rw [updateLast, List.get?_cons_succ, List.get?_cons_succ]
        exact ih m' (by simpa using h)

theorem updateLast_sum (l : List ℤ) (p : ℤ) (h : l ≠ []) :
    (updateLast l p).sum = l.sum + p := by
  induction l with
  | nil => exact absurd rfl h
  | cons a rest ih =>
    cases rest with
    | nil => simp [updateLast]
    | cons b t =>
      rw [updateLast, List.sum_cons, List.sum_cons, ih (by simp)]
      ring

/-- Claim C9: for `N ≥ 2` and any level count, `pad(N, n_levels)` is
non-negative and makes `(N + pad) - 1` divisible by `2 ^ n_levels`; the
`Poisson3::setup` padding adds `pad` to the last ownership block only
(lengths and all earlier blocks unchanged, total grown by exactly `pad`)
and keeps the lower domain bound fixed while moving the upper one. -/
theorem c9_pad (N L : ℕ) (hN : 2 ≤ N) (lx : List ℤ) (hlx : lx ≠ [])
    (xmin xmax dx : ℚ) :
    0 ≤ pad N L ∧
    (2 ^ L : ℤ) ∣ ((N : ℤ) + pad N L - 1) ∧
    (updateLast lx (pad N L)).length = lx.length ∧
    (updateLast lx (pad N L)).getLast? = Option.map (fun a => a + pad N L) lx.getLast? ∧
    (∀ m : ℕ, m + 1 < lx.length → (updateLast lx (pad N L)).get? m = lx.get? m) ∧
    (updateLast lx (pad N L)).sum = lx.sum + pad N L ∧
    (padDomain xmin xmax dx (pad N L)).1 = xmin ∧
    (padDomain xmin xmax dx (pad N L)).2 = xmax + (pad N L : ℚ) * dx := by
  have hfst : (padAux L (1, N - 1)).1 = 2 ^ L := by
    rw [padAux_fst]; ring
  have hge : N - 1 ≤ 2 ^ L * (padAux L (1, N - 1)).2 := padAux_snd_ge L 1 (N - 1)
  refine ⟨?_, ?_, updateLast_length lx _, updateLast_getLast? lx _ hlx,
    fun m hm => updateLast_get? lx _ m hm, updateLast_sum lx _ hlx, rfl, rfl⟩
  · unfold pad
    rw [hfst]
    have h1 : (N : ℤ) - 1 ≤ (2 ^ L : ℕ) * (padAux L (1, N - 1)).2 := by
      have := hge
      omega
    push_cast at h1 ⊢
    omega
  · unfold pad
    rw [hfst]
    have : (N : ℤ) + ((2 ^ L : ℕ) * (padAux L (1, N - 1)).2 + 1 - N) - 1
        = (2 ^ L : ℤ) * (padAux L (1, N - 1)).2 := by
      push_cast
      ring
    push_cast at this ⊢
    rw [this]
    exact Dvd.intro _ rfl

/-- Witness for C9 at `N = 6`, `n_levels = 2`, ownership blocks `[2, 3]`. -/
theorem c9_pad_witness :
    (2 ≤ 6 ∧ ([2, 3] : List ℤ) ≠ []) ∧
    0 ≤ pad 6 2 ∧ (2 ^ 2 : ℤ) ∣ ((6 : ℤ) + pad 6 2 - 1) :=
  ⟨⟨by norm_num, by simp⟩,
    (c9_pad 6 2 (by norm_num) [2, 3] (by simp) 0 1 1).1,
    (c9_pad 6 2 (by norm_num) [2, 3] (by simp) 0 1 1).2.1⟩

/-- Claim C3 counterexample: with thickness equal to the threshold at every
node, no element is icy under the claim's "exceeds the threshold" reading
(class EXTERIOR), but `compute_node_type` treats every element as icy
(`thickness < min_thickness` never fires) and classifies the node INTERIOR. -/
theorem c3_exceeds_counterexample :
    nodeType (fun _ _ => (1 : ℚ)) 1 0 0 = NodeKind.interior ∧
    nodeTypeSpec (fun _ _ => (1 : ℚ)) 1 0 0 = NodeKind.exterior ∧
    NodeKind.interior ≠ NodeKind.exterior := by
  refine ⟨by decide, by decide, by decide⟩

/-- Claim C3 (amended: an element is icy iff every nodal thickness is at
least — rather than strictly above — the threshold): `compute_node_type`
classifies a node INTERIOR iff all four incident elements are icy,
EXTERIOR iff none is, BOUNDARY otherwise, and the classification depends
only on the thickness field (so reclassifying with unchanged thickness
yields the same classes). -/
theorem c3_node_classification {α : Type*} [LinearOrder α]
    (H H' : ℤ → ℤ → α) (hmin : α) (i j : ℤ)
    (hH : ∀ a b, H a b = H' a b) :
    (∀ a b : ℤ, elementIsIcy H hmin a b = true ↔
      ∀ k : Fin 4, hmin ≤ H (a + iOffset k) (b + jOffset k)) ∧
    (nodeType H hmin i j = NodeKind.interior ↔
      (elementIsIcy H hmin (i - 1) (j - 1) = true ∧ elementIsIcy H hmin i (j - 1) = true ∧
       elementIsIcy H hmin (i - 1) j = true ∧ elementIsIcy H hmin i j = true)) ∧
    (nodeType H hmin i j = NodeKind.exterior ↔
      (elementIsIcy H hmin (i - 1) (j - 1) = false ∧ elementIsIcy H hmin i (j - 1) = false ∧
       elementIsIcy H hmin (i - 1) j = false ∧ elementIsIcy H hmin i j = false)) ∧
    (nodeType H hmin i j = NodeKind.boundary ↔
      (¬ (elementIsIcy H hmin (i - 1) (j - 1) = true ∧ elementIsIcy H hmin i (j - 1) = true ∧
          elementIsIcy H hmin (i - 1) j = true ∧ elementIsIcy H hmin i j = true) ∧
       ¬ (elementIsIcy H hmin (i - 1) (j - 1) = false ∧ elementIsIcy H hmin i (j - 1) = false ∧
          elementIsIcy H hmin (i - 1) j = false ∧ elementIsIcy H hmin i j = false))) ∧
    nodeType H hmin i j = nodeType H' hmin i j := by
  have hHH : H = H' := funext fun a => funext fun b => hH a b
  subst hHH
  refine ⟨fun a b => by simp [elementIsIcy, not_lt], ?_, ?_, ?_, rfl⟩ <;>
    cases h1 : elementIsIcy H hmin (i - 1) (j - 1) <;>
    cases h2 : elementIsIcy H hmin i (j - 1) <;>
    cases h3 : elementIsIcy H hmin (i - 1) j <;>
    cases h4 : elementIsIcy H hmin i j <;>
    simp [nodeType, icyCount, h1, h2, h3, h4]

/-- Witness for C3: two syntactically different but pointwise equal
thickness fields produce the same classification. -/
theorem c3_node_classification_witness :
    (∀ a b : ℤ, (fun (_ _ : ℤ) => (1 : ℚ)) a b = (fun (i _ : ℤ) => 1 + 0 * (i : ℚ)) a b) ∧
    nodeType (fun _ _ => (1 : ℚ)) 0 0 0 = nodeType (fun (i _ : ℤ) => 1 + 0 * (i : ℚ)) 0 0 0 :=
  ⟨fun a b => by norm_num,
    (c3_node_classification (fun _ _ => (1 : ℚ)) (fun (i _ : ℤ) => 1 + 0 * (i : ℚ)) 0 0 0
      (fun a b => by norm_num)).2.2.2.2⟩

/-- Claim C5 counterexample: a grounded-ice cell below sea level surrounded
by ice-free ocean on all 8 sides (the claim's pure "nose") keeps its
thickness: every disjunct of the removal test requires one non-ice-free
neighbor, so an isolated cell is NOT removed, contradicting the claim. -/
theorem c5_nose_counterexample :
    remove_narrow_tongues_cell noseTestBox 0 1 100 = 100 ∧ (100 : ℚ) ≠ 0 := by
  refine ⟨by decide, by norm_num⟩

/-- Claim C5 (amended: the removal happens only for cells below sea level,
and the pure "nose" — all 8 neighbors ice-free — is left untouched):
a grounded-ice cell with `bed < sea_level` whose N, S, E, NE, NW, SE, SW
neighbors are ice-free ocean but whose W neighbor is not is zeroed; the
same configuration with the W neighbor also ice-free keeps its thickness;
and any configuration with two opposite non-ice-free neighbors keeps its
thickness. -/
theorem c5_narrow_tongues (M : MaskBox) (bed sea_level thickness : ℚ) :
    (grounded_ice M.ij = true → bed < sea_level →
      ice_free_ocean M.n = true → ice_free_ocean M.s = true →
      ice_free_ocean M.e = true → ice_free_ocean M.ne = true →
      ice_free_ocean M.nw = true → ice_free_ocean M.se = true →
      ice_free_ocean M.sw = true → ice_free_ocean M.w = false →
      remove_narrow_tongues_cell M bed sea_level thickness = 0) ∧
    (grounded_ice M.ij = true → bed < sea_level →
      ice_free_ocean M.n = true → ice_free_ocean M.s = true →
      ice_free_ocean M.e = true → ice_free_ocean M.ne = true →
      ice_free_ocean M.nw = true → ice_free_ocean M.se = true →
      ice_free_ocean M.sw = true → ice_free_ocean M.w = true →
      remove_narrow_tongues_cell M bed sea_level thickness = thickness) ∧
    (((iceFreeBox M).n = false ∧ (iceFreeBox M).s = false) ∨
     ((iceFreeBox M).e = false ∧ (iceFreeBox M).w = false) ∨
     ((iceFreeBox M).ne = false ∧ (iceFreeBox M).sw = false) ∨
     ((iceFreeBox M).nw = false ∧ (iceFreeBox M).se = false) →
      remove_narrow_tongues_cell M bed sea_level thickness = thickness) := by
  refine ⟨?_, ?_, ?_⟩
  · intro hground hbed hn hs he hne hnw hse hsw hw
    have hij : M.ij = CellKind.groundedIce := by
      simpa [grounded_ice] using hground
    have hbed' : ¬ bed ≥ sea_level := not_le.mpr hbed
    simp [remove_narrow_tongues_cell, hij, ice_free, grounded_ice, iceFreeBox,
      noseCondition, hn, hs, he, hne, hnw, hse, hsw, hw, hbed']
  · intro hground hbed hn hs he hne hnw hse hsw hw
    have hij : M.ij = CellKind.groundedIce := by
      simpa [grounded_ice] using hground
    have hbed' : ¬ bed ≥ sea_level := not_le.mpr hbed
    simp [remove_narrow_tongues_cell, hij, ice_free, grounded_ice, iceFreeBox,
      noseCondition, hn, hs, he, hne, hnw, hse, hsw, hw, hbed']
  · intro h
    have hfalse : noseCondition (iceFreeBox M) = false := by
      rcases h with ⟨h1, h2⟩ | ⟨h1, h2⟩ | ⟨h1, h2⟩ | ⟨h1, h2⟩ <;>
        simp [noseCondition, h1, h2]
    unfold remove_narrow_tongues_cell
    rw [hfalse]
    simp

theorem elemRows_valid_shape (g : ProcBlock) (d : ℤ → ℤ → ℚ) (i j : ℤ) (t : Fin 4)
    (hv : stencilValid (elemRows g d i j t)) :
    elemRows g d i j t = { i := i + iOffset t, j := j + jOffset t, k := 0 } ∧
    ¬ dirichletAt d (i + iOffset t) (j + jOffset t) := by
  unfold elemRows at hv ⊢
  split at hv <;> rename_i hdir
  · exact absurd hv (by decide)
  · rw [if_neg hdir]
    unfold elemRowsReset at hv ⊢
    split at hv <;> rename_i hout
    · exact absurd hv (by decide)
    · rw [if_neg hout]
      exact ⟨rfl, hdir⟩

theorem elemCols_valid_shape (d : ℤ → ℤ → ℚ) (i j : ℤ) (t : Fin 4)
    (hv : stencilValid (elemCols d i j t)) :
    elemCols d i j t = { i := i + iOffset t, j := j + jOffset t, k := 0 } ∧
    ¬ dirichletAt d (i + iOffset t) (j + jOffset t) := by
  unfold elemCols at hv ⊢
  split at hv <;> rename_i hdir
  · exact absurd hv (by decide)
  · rw [if_neg hdir]
    exact ⟨rfl, hdir⟩

theorem addContribution_dirichlet_zero {α : Type*} [AddCommMonoid α] (g : ProcBlock)
    (d : ℤ → ℤ → ℚ) (i j : ℤ) (K : Fin 4 → Fin 4 → α) (r : ℤ × ℤ)
    (hd : dirichletAt d r.1 r.2) (M : GlobalMat α)
    (hM : (∀ c, M r c = 0) ∧ ∀ c, M c r = 0) :
    (∀ c, addContribution (elemRows g d i j) (elemCols d i j) K M r c = 0) ∧
    (∀ c, addContribution (elemRows g d i j) (elemCols d i j) K M c r = 0) := by
  constructor <;> intro c <;> unfold addContribution
  · rw [hM.1 c, zero_add]
    refine Finset.sum_eq_zero fun t _ => Finset.sum_eq_zero fun s _ => ?_
    rw [if_neg]
    rintro ⟨hvr, hvc, h1, h2, h3, h4⟩
    obtain ⟨hshape, hnd⟩ := elemRows_valid_shape g d i j t hvr
    rw [hshape] at h1 h2
    dsimp only at h1 h2
    rw [← h1, ← h2] at hd
    exact hnd hd
  · rw [hM.2 c, zero_add]
    refine Finset.sum_eq_zero fun t _ => Finset.sum_eq_zero fun s _ => ?_
    rw [if_neg]
    rintro ⟨hvr, hvc, h1, h2, h3, h4⟩
    obtain ⟨hshape, hnd⟩ := elemCols_valid_shape d i j s hvc
    rw [hshape] at h3 h4
    dsimp only at h3 h4
    rw [← h3, ← h4] at hd
    exact hnd hd

theorem assemble_dirichlet_zero {α : Type*} [AddCommMonoid α] (g : ProcBlock)
    (d : ℤ → ℤ → ℚ) (es : List (ElemContrib α)) (r : ℤ × ℤ)
    (hd : dirichletAt d r.1 r.2) :
    (∀ c, assemble g d es r c = 0) ∧ (∀ c, assemble g d es c r = 0) := by
  unfold assemble
  suffices h : ∀ M : GlobalMat α, ((∀ c, M r c = 0) ∧ ∀ c, M c r = 0) →
      (∀ c, (es.foldl
        (fun M e => addContribution (elemRows g d e.i e.j) (elemCols d e.i e.j) e.K M)
        M) r c = 0) ∧
      (∀ c, (es.foldl
        (fun M e => addContribution (elemRows g d e.i e.j) (elemCols d e.i e.j) e.K M)
        M) c r = 0) by
    exact h _ ⟨fun _ => rfl, fun _ => rfl⟩
  induction es with
  | nil => exact fun M hM => hM
  | cons e rest ih =>
    intro M hM
    exact ih _ (addContribution_dirichlet_zero g d e.i e.j e.K r hd M hM)

theorem fixFold_apply {α : Type*} [AddCommMonoid α] (d : ℤ → ℤ → ℚ) (v : α)
    (L : List (ℤ × ℤ)) (M : GlobalMat α) (r c : ℤ × ℤ) :
    (L.foldl (fun M p => fun r c =>
        M r c + if dirichletAt d p.1 p.2 ∧ r = p ∧ c = p then v else 0) M) r c =
      M r c + if dirichletAt d r.1 r.2 ∧ c = r then (L.count r) • v else 0 := by
  induction L generalizing M with
  | nil => simp
  | cons p L ih =>
    rw [List.foldl_cons, ih, List.count_cons]
    by_cases h1 : dirichletAt d r.1 r.2 ∧ c = r
    · by_cases h2 : r = p
      · have hx : dirichletAt d p.1 p.2 ∧ r = p ∧ c = p :=
          ⟨by rw [← h2]; exact h1.1, h2, h1.2.trans h2⟩
        rw [if_pos hx, if_pos h1, if_pos h1]
        have hb : (p == r) = true := by simp [h2]
        rw [hb, if_pos rfl, succ_nsmul]
        abel
      · have hx : ¬ (dirichletAt d p.1 p.2 ∧ r = p ∧ c = p) := fun hc => h2 hc.2.1
        have hb : (p == r) = false := by
          simp only [beq_eq_false_iff_ne, ne_eq]
          exact fun h => h2 h.symm
        rw [if_neg hx, if_pos h1, if_pos h1, hb]
        simp
    · have hx : ¬ (dirichletAt d p.1 p.2 ∧ r = p ∧ c = p) := by
        rintro ⟨hdp, hrp, hcp⟩
        exact h1 ⟨by rw [hrp]; exact hdp, hcp.trans hrp.symm⟩
      rw [if_neg hx, if_neg h1, if_neg h1]
      simp

theorem fixJacobian_apply {α : Type*} [AddCommMonoid α] (g : ProcBlock) (d : ℤ → ℤ → ℚ)
    (v : α) (M : GlobalMat α) (r c : ℤ × ℤ) :
    fixJacobian g d v M r c =
      M r c + if dirichletAt d r.1 r.2 ∧ c = r
        then ((pointsList g.xs g.xm g.ys g.ym).count r) • v else 0 :=
  fixFold_apply d v (pointsList g.xs g.xm g.ys g.ym) M r c

/-- Claim C2: after normal assembly (every element passing through `reset`,
`constrain`, `add_contribution`) followed by `fix_jacobian`, every owned
node whose Dirichlet indicator exceeds 0.5 carries exactly the inserted
weight on the matrix diagonal (the scalar `weight` for the scalar case,
the block `weightIdBlock weight` for the vector case — the entry type is
a generic additive commutative monoid covering both), and the rest of its
row and column is zero; moreover the rows written by `fix_jacobian` are
disjoint from the rows any element writes, because `constrain` marks
Dirichlet rows/columns invalid and `add_contribution` ignores them. -/
theorem c2_fix_jacobian {α : Type*} [AddCommMonoid α] (g : ProcBlock) (d : ℤ → ℤ → ℚ)
    (v : α) (es : List (ElemContrib α)) (r : ℤ × ℤ)
    (hx : 1 ≤ g.xm) (hy : 1 ≤ g.ym) (howned : ownsPt g r) (hd : dirichletAt d r.1 r.2) :
    fixJacobian g d v (assemble g d es) r r = v ∧
    (∀ c : ℤ × ℤ, c ≠ r →
      fixJacobian g d v (assemble g d es) r c = 0 ∧
      fixJacobian g d v (assemble g d es) c r = 0) ∧
    (∀ (i j : ℤ) (t : Fin 4), stencilValid (elemRows g d i j t) →
      ¬ dirichletAt d (elemRows g d i j t).i (elemRows g d i j t).j) := by
  have hzero := assemble_dirichlet_zero g d es r hd
  have hcount : (pointsList g.xs g.xm g.ys g.ym).count r = 1 := by
    have h := blockPoints_count g hx hy r
    unfold blockPoints at h
    rw [h, if_pos howned]
  refine ⟨?_, ?_, ?_⟩
  · rw [fixJacobian_apply, hzero.1 r, if_pos ⟨hd, rfl⟩, hcount, one_nsmul, zero_add]
  · intro c hc
    constructor
    · rw [fixJacobian_apply, hzero.1 c, if_neg fun h => hc h.2, add_zero]
    · rw [fixJacobian_apply, hzero.2 c, if_neg fun h => hc h.2.symm, add_zero]
  · intro i j t hv
    obtain ⟨hshape, hnd⟩ := elemRows_valid_shape g d i j t hv
    rw [hshape]
    exact hnd

/-- Witness for C2 (vector-valued case): one Dirichlet node at the origin
of a 2x2 single-process grid, one assembled element, weight 3. -/
theorem c2_fix_jacobian_witness :
    ((1 : ℤ) ≤ 2 ∧ ownsPt ⟨0, 2, 0, 2⟩ ((0 : ℤ), (0 : ℤ)) ∧
      dirichletAt (fun i j => if i = 0 ∧ j = 0 then 1 else 0) 0 0) ∧
    fixJacobian ⟨0, 2, 0, 2⟩ (fun i j => if i = 0 ∧ j = 0 then 1 else 0) (weightIdBlock 3)
      (assemble ⟨0, 2, 0, 2⟩ (fun i j => if i = 0 ∧ j = 0 then 1 else 0)
        [⟨0, 0, fun _ _ => weightIdBlock 1⟩]) (0, 0) (0, 0) = weightIdBlock 3 := by
  refine ⟨⟨by norm_num, by decide, by norm_num [dirichletAt]⟩, ?_⟩
  exact (c2_fix_jacobian ⟨0, 2, 0, 2⟩ (fun i j => if i = 0 ∧ j = 0 then 1 else 0)
    (weightIdBlock 3) [⟨0, 0, fun _ _ => weightIdBlock 1⟩] (0, 0)
    (by norm_num) (by norm_num) (by decide) (by norm_num [dirichletAt])).1

/-- Witness for C5: the attached-tongue configuration is zeroed. -/
theorem c5_narrow_tongues_witness :
    (grounded_ice tongueTestBox.ij = true ∧ (0 : ℚ) < 1 ∧
      ice_free_ocean tongueTestBox.w = false) ∧
    remove_narrow_tongues_cell tongueTestBox 0 1 100 = 0 :=
  ⟨⟨by decide, by norm_num, by decide⟩,
    (c5_narrow_tongues tongueTestBox 0 1 100).1 (by decide) (by norm_num) (by decide)
      (by decide) (by decide) (by decide) (by decide) (by decide) (by decide) (by decide)⟩

theorem jacobianFEntry_diag (D : BlatterElemData) (q : ℕ) (t : Fin 8) :
    jacobianFEntry D q t false t true = jacobianFEntry D q t true t false := by
  simp only [jacobianFEntry]
  unfold bEtaU bEtaV bGammaU bGammaV
  ring

theorem jacobianBasalEntry_diag (D : BlatterElemData) (q : ℕ) (t : Fin 8) :
    jacobianBasalEntry D q t false t true = jacobianBasalEntry D q t true t false := by
  simp only [jacobianBasalEntry]
  ring

theorem blatterElementK_diag (D : BlatterElemData) (t : Fin 8) :
    blatterElementK D t false t true = blatterElementK D t true t false := by
  unfold blatterElementK jacobianF jacobianBasal
  rw [if_pos le_rfl, if_pos le_rfl]
  congr 1
  · exact Finset.sum_congr rfl fun q _ => by rw [jacobianFEntry_diag]
  · refine if_congr Iff.rfl (Finset.sum_congr rfl fun q _ => ?_) rfl
    rw [jacobianBasalEntry_diag]

/-- Claim C4: for every Blatter element (its viscous `jacobian_f`
contribution plus, on bottom-level elements, the basal `jacobian_basal`
contribution), the 16x16 element matrix satisfies `K[s][t] = K[t][s]` for
all valid index pairs after the explicit lower-triangle fill step.  The
off-diagonal 2x2 blocks are symmetric by construction of the fill; the
within-diagonal-block pairs are never touched by the fill and are equal by
the algebraic symmetry of the Picard and Newton terms at `phi = psi`. -/
theorem c4_blatter_jacobian_symmetry (D : BlatterElemData) (t s : Fin 8) (d1 d2 : Bool) :
    fillLower (blatterElementK D) t d1 s d2 = fillLower (blatterElementK D) s d2 t d1 := by
  unfold fillLower
  rcases lt_trichotomy s t with h | h | h
  · rw [if_pos h, if_neg (not_lt.mpr h.le)]
  · subst h
    rw [if_neg (lt_irrefl s), if_neg (lt_irrefl s)]
    cases d1 <;> cases d2
    · rfl
    · exact blatterElementK_diag D s
    · exact (blatterElementK_diag D s).symm
    · rfl
  · rw [if_neg (not_lt.mpr h.le), if_pos h]

end PISM
